import Mathlib

/-
Verification development for the xv6 virtual-memory extensions in
src/xv6-public/sysproc.c: the per-process mapping table, the arena
address allocator (find_available_address), the mmap and munmap system
calls, the page-fault handler (COW, lazy anonymous and file-backed
fill, MAP_GROWSUP) and the fork-time COW preparation.

The embedding is shallow: each C function is translated into a Lean
function over explicit state.  External collaborators that the code
only calls through interfaces (walkpgdir, kalloc, mappages, readi,
writei, the open-file table) are passed in as explicit oracle
parameters, and the file-system calls the code performs are recorded
as an event trace.  Machine integers are Nat with explicit mod 2^32
arithmetic at the places where the C unsigned arithmetic can wrap.
-/

namespace Osp5

/-- Page size in bytes (PGSIZE). -/
def PGSIZE : Nat := 4096

/-- Low end of the mmap arena (MMAP_AREA_START in sysproc.c). -/
def MMAP_AREA_START : Nat := 0x60000000

/-- High end of the mmap arena (MMAP_AREA_END in sysproc.c). -/
def MMAP_AREA_END : Nat := 0x80000000

/-- Modelled from the spec: mmap.h is not under src.  The spec fixes
MAP_SHARED, MAP_PRIVATE, MAP_ANONYMOUS, MAP_FIXED and MAP_GROWSUP as
distinct flag bits; the concrete bit positions are irrelevant to every
claim. -/
def MAP_SHARED : Nat := 0x1

/-- Modelled from the spec: distinct flag bit (see MAP_SHARED). -/
def MAP_PRIVATE : Nat := 0x2

/-- Modelled from the spec: distinct flag bit (see MAP_SHARED). -/
def MAP_ANONYMOUS : Nat := 0x4

/-- Modelled from the spec: distinct flag bit (see MAP_SHARED). -/
def MAP_FIXED : Nat := 0x8

/-- Modelled from the spec: distinct flag bit (see MAP_SHARED). -/
def MAP_GROWSUP : Nat := 0x10

/-- Present bit of an x86 PTE (mmu.h, architectural). -/
def PTE_P : Nat := 0x1

/-- Writable bit of an x86 PTE (mmu.h, architectural). -/
def PTE_W : Nat := 0x2

/-- User bit of an x86 PTE (mmu.h, architectural). -/
def PTE_U : Nat := 0x4

/-- Modelled from the spec: mmu.h is not under src.  The spec reserves
one otherwise-unused software PTE bit as PTE_COW; x86 leaves bits 9-11
to software, and we fix bit 11. -/
def PTE_COW : Nat := 0x800

/-- Modelled from the spec: memlayout.h is not under src.  KERNBASE is
the base of the kernel direct map used by P2V and V2P; the teaching
kernel places it at 0x80000000 (the top of the mapping arena). -/
def KERNBASE : Nat := 0x80000000

/-- Modelled from the spec: param.h is not under src.  NOFILE is the
size of the per-process open-file table; a valid file descriptor index
satisfies 0 <= fd < NOFILE. -/
def NOFILE : Int := 16

/-- All-ones 32-bit mask; used to express C bitwise complement of a
32-bit constant, as in the expression x AND NOT(PTE_COW). -/
def mask32 : Nat := 0xFFFFFFFF

/-- 32-bit unsigned subtraction (uint wraparound). -/
def sub32 (a b : Nat) : Nat := if b ≤ a then a - b else a + 2 ^ 32 - b

/-- 32-bit unsigned addition (uint wraparound). -/
def add32 (a b : Nat) : Nat := (a + b) % 2 ^ 32

/-- PGROUNDUP from mmu.h: round up to the next page boundary. -/
def PGROUNDUP (a : Nat) : Nat := (a + PGSIZE - 1) / PGSIZE * PGSIZE

/-- PGROUNDDOWN from mmu.h: round down to a page boundary. -/
def PGROUNDDOWN (a : Nat) : Nat := a / PGSIZE * PGSIZE

/-- PTE_ADDR from mmu.h: the physical frame address held in a PTE. -/
def PTE_ADDR (pte : Nat) : Nat := pte &&& 0xFFFFF000

/-- PTE_FLAGS from mmu.h: the low twelve flag bits of a PTE. -/
def PTE_FLAGS (pte : Nat) : Nat := pte &&& 0xFFF

/-- P2V from memlayout.h: kernel virtual address of a physical address. -/
def P2V (pa : Nat) : Nat := pa + KERNBASE

/-- V2P from memlayout.h: physical address of a kernel virtual address
(32-bit subtraction). -/
def V2P (va : Nat) : Nat := sub32 va KERNBASE

/-- The value of a C int read as a 32-bit two-complement number, given
the unsigned 32-bit view.  Used where sysproc.c casts unsigned values
to int before comparing. -/
def toInt32 (a : Nat) : Int := if a < 2 ^ 31 then (a : Int) else (a : Int) - 2 ^ 32

/-- One entry of the per-process mapping table (struct mem_mapping).
The struct declaration lives in a header that is not under src; the
fields are exactly the ones sysproc.c reads or writes: addr, length,
flags, fd, originalLength and allocated.  sys_mmap stores the
(validated, positive) int length, so length and originalLength are
carried as Nat.  sys_mmap leaves allocated uninitialised; the model
uses false for that indeterminate value. -/
structure mem_mapping where
  addr : Nat
  length : Nat
  flags : Nat
  fd : Int
  originalLength : Nat
  allocated : Bool
  deriving Repr, DecidableEq

/-- Overlap test of the candidate range [addr, addr+length) against the
existing mappings, from the inner loop of find_available_address: the
incumbent end is rounded up, the candidate end is the raw length. -/
def overlapsAny (maps : List mem_mapping) (addr length : Nat) : Bool :=
  maps.any fun m =>
    decide (m.addr < addr + length) && decide (addr < m.addr + PGROUNDUP m.length)

/-- The while loop of find_available_address: first-fit scan ascending
in page-size steps while addr + length <= MMAP_AREA_END.  The loop in C
is bounded because addr strictly grows each iteration; the fuel
argument carries that bound and is chosen large enough in
find_available_address that it is never exhausted before the bound
check fails. -/
def faa_loop (maps : List mem_mapping) (length : Nat) : Nat → Nat → Nat
  | 0, _ => 0
  | fuel + 1, addr =>
    if addr + length ≤ MMAP_AREA_END then
      if overlapsAny maps addr length then faa_loop maps length fuel (addr + PGSIZE)
      else addr
    else 0

/-- find_available_address from sysproc.c: first-fit search from
MMAP_AREA_START, returning 0 when no slot fits. -/
def find_available_address (maps : List mem_mapping) (length : Nat) : Nat :=
  faa_loop maps length ((MMAP_AREA_END - MMAP_AREA_START) / PGSIZE + 1) MMAP_AREA_START

/-- sys_mmap from sysproc.c, over the mapping table of the current
process.  ofile models the per-process open-file table: ofile fd is
true when slot fd holds an open file.  addr is the hint address as the
unsigned 32-bit value delivered by the argument marshaller; length,
prot, fd and offset are the int arguments; flags is the (non-negative)
flag word.  Returns the C return value together with the table after
the call.  Note the source performs no num_mappings capacity check
before storing the new descriptor. -/
def sys_mmap (ofile : Int → Bool) (maps : List mem_mapping)
    (addr : Nat) (length : Int) (prot : Int) (flags : Nat) (fd offset : Int) :
    Int × List mem_mapping :=
  if length ≤ 0 then (-1, maps)
  else if addr ≠ 0 ∧ (toInt32 addr < (MMAP_AREA_START : Int) ∨
      toInt32 addr > (MMAP_AREA_END : Int) - (PGSIZE : Int) ∨ addr % PGSIZE ≠ 0) then
    (-1, maps)
  else if ¬ (flags &&& MAP_SHARED ≠ 0 ∨ flags &&& MAP_PRIVATE ≠ 0) then (-1, maps)
  else if flags &&& MAP_ANONYMOUS ≠ 0 ∧ (fd ≠ -1 ∨ offset ≠ 0) then (-1, maps)
  else if flags &&& MAP_FIXED ≠ 0 ∧ (addr = 0 ∨ addr % PGSIZE ≠ 0) then (-1, maps)
  else if flags &&& MAP_ANONYMOUS = 0 ∧ (fd < 0 ∨ fd ≥ NOFILE ∨ ¬ ofile fd) then (-1, maps)
  else
    let store : Nat → Int × List mem_mapping := fun new_address =>
      ((new_address : Int),
        maps ++ [{ addr := new_address, length := length.toNat, flags := flags,
                   fd := fd, originalLength := length.toNat, allocated := false }])
    if flags &&& MAP_FIXED ≠ 0 then store addr
    else
      let new_address := find_available_address maps length.toNat
      if new_address = 0 then (-1, maps) else store new_address

/-- Test from sys_munmap: the mapping is file backed with MAP_SHARED,
so its resident pages are written back to the inode. -/
def munmap_shared_file (m : mem_mapping) : Bool :=
  decide (m.flags &&& MAP_SHARED ≠ 0) && decide (m.flags &&& MAP_ANONYMOUS = 0)

/-- Oracles for sys_munmap: pte gives the walkpgdir result for a page
(indexed by the page base address, None when the walk returns no slot),
ofileOpen models the open-file table, and writei_res gives the writei
return value for the write-back at a given file offset. -/
structure MunmapEnv where
  pte : Nat → Option Nat
  ofileOpen : Int → Bool
  writei_res : Nat → Int

/-- The page sweep of sys_munmap: walks [addr, addr+length) page by
page; a resident page of a shared file mapping is written back, and a
negative writei result aborts the call with -1.  The fuel is the page
count of the range, so it is exhausted exactly when va reaches stop. -/
def munmap_sweep (env : MunmapEnv) (m : mem_mapping) : Nat → Nat → Nat → Bool
  | 0, _, _ => true
  | fuel + 1, va, stop =>
    if va < stop then
      let ok : Bool :=
        match env.pte (PGROUNDDOWN va) with
        | some p =>
          if p &&& PTE_P ≠ 0 ∧ munmap_shared_file m then
            decide (0 ≤ env.writei_res (va - m.addr))
          else true
        | none => true
      if ok then munmap_sweep env m fuel (va + PGSIZE) stop else false
    else true

/-- sys_munmap from sysproc.c.  Returns none on a kernel panic (open
file vanished), otherwise some of the C return value and the mapping
table after the call.  The loop body of the source ends in an
unconditional break, so only index 0 is ever inspected; the
shift-down of the tail and the num_mappings decrement sit outside the
containment check, so they run even when the first descriptor does not
contain the range. -/
def sys_munmap (env : MunmapEnv) (maps : List mem_mapping) (addr length : Nat) :
    Option (Int × List mem_mapping) :=
  match maps with
  | [] => some (-1, [])
  | m :: rest =>
    if m.addr ≤ addr ∧ addr + length ≤ m.addr + m.length then
      if munmap_shared_file m ∧ 0 ≤ m.fd ∧ ¬ env.ofileOpen m.fd then none
      else if munmap_sweep env m ((length + PGSIZE - 1) / PGSIZE) addr (addr + length) then
        some (0, rest)
      else some (-1, m :: rest)
    else some (-1, rest)

/-- Contents of one physical page, byte-indexed. -/
def Page : Type := Nat → Nat

/-- The zeroed page written by the anonymous fill (memset 0). -/
def zeroPage : Page := fun _ => 0

/-- File-system events the fault handler performs, in order: log
transaction begin and end, inode lock and unlock, and readi of n bytes
at a file offset. -/
inductive FsEvent where
  | beginOp : FsEvent
  | endOp : FsEvent
  | ilock : Nat → FsEvent
  | iunlock : Nat → FsEvent
  | readi : Nat → Int → Nat → FsEvent
  deriving Repr, DecidableEq

/-- Oracles for page_fault_handler: kallocRes is the frame (kernel
virtual address) returned by kalloc, none meaning out of memory (a
panic in the source); ofileOpen models the open-file table; fileInode
names the inode behind an open file descriptor; readPage gives the
page readi produces for an inode and file offset; mappagesOk tells
whether the mappages insertion succeeds. -/
structure PFEnv where
  kallocRes : Option Nat
  ofileOpen : Int → Bool
  fileInode : Int → Nat
  readPage : Nat → Int → Page
  mappagesOk : Bool

/-- State page_fault_handler reads and writes: the mapping table, the
page table (walkpgdir result per page base address) and the contents of
kernel pages, indexed by kernel virtual address. -/
structure PFState where
  mappings : List mem_mapping
  pte : Nat → Option Nat
  mem : Nat → Page

/-- Result of one page_fault_handler call: the C return value, the
state after the call, the frames passed to kfree, the file-system
event trace, and whether the TLB was flushed (lcr3). -/
structure PFOut where
  res : Int
  mappings : List mem_mapping
  pte : Nat → Option Nat
  mem : Nat → Page
  freed : List Nat
  fsTrace : List FsEvent
  tlbFlushed : Bool

/-- Point update of a page-table model. -/
def setp (f : Nat → Option Nat) (k v : Nat) : Nat → Option Nat :=
  fun x => if x = k then some v else f x

/-- Point update of the kernel-page contents model. -/
def setmem (f : Nat → Page) (k : Nat) (v : Page) : Nat → Page :=
  fun x => if x = k then v else f x

/-- Modelled from the spec: vm.c (mappages) is not under src.  Per the
spec the handler maps round_down_page(va) to the frame with USER|WRITE
permission; the walker install also sets the present bit. -/
def mappages_value (framePa : Nat) : Nat := framePa ||| PTE_W ||| PTE_U ||| PTE_P

/-- The inner scan of the MAP_GROWSUP block: next_mapping_start starts
at 0xFFFFFFFF and the loop breaks at the first (by index) mapping whose
addr is at or above end_of_mapping. -/
def growsup_scan : List mem_mapping → Nat → Nat
  | [], _ => 0xFFFFFFFF
  | m :: rest, e =>
    if m.addr ≥ e ∧ m.addr < 0xFFFFFFFF then m.addr else growsup_scan rest e

/-- Body of the mapping-table loop of page_fault_handler once the
matching descriptor m0 (at index i) has been found: set allocated on
the local copy, fetch the file behind fd when fd > 0 (panic when the
slot is empty), kalloc a frame (panic on failure), run the MAP_GROWSUP
extension (whose no-room break falls out of the loop to the
Segmentation Fault return, leaking the frame), fill the frame from the
file or with zeroes, and install it with mappages, freeing the frame on
insertion failure - but still returning 1. -/
def pf_handle (env : PFEnv) (st : PFState) (va : Nat) (i : Nat) (m0 : mem_mapping) :
    Option PFOut :=
  let map : mem_mapping := { m0 with allocated := true }
  if map.fd > 0 ∧ ¬ env.ofileOpen map.fd then none
  else
    match env.kallocRes with
    | none => none
    | some mem =>
      let grow : Option (List mem_mapping) :=
        if map.flags &&& MAP_GROWSUP ≠ 0 then
          let e := add32 (PGROUNDUP (map.addr + map.length)) PGSIZE
          let next := growsup_scan st.mappings e
          if PGSIZE ≥ sub32 next e then none
          else some (st.mappings.set i { m0 with length := m0.length + PGSIZE })
        else some st.mappings
      match grow with
      | none =>
        some { res := -1, mappings := st.mappings, pte := st.pte, mem := st.mem,
               freed := [], fsTrace := [], tlbFlushed := false }
      | some maps1 =>
        let ip := if map.fd > 0 then env.fileInode map.fd else 0
        let fileBacked : Bool := map.flags &&& MAP_ANONYMOUS = 0
        let offset_into_file : Int := toInt32 (PGROUNDDOWN va) - toInt32 map.addr
        let trace : List FsEvent :=
          if fileBacked then
            [FsEvent.beginOp, FsEvent.ilock ip,
             FsEvent.readi ip offset_into_file PGSIZE,
             FsEvent.iunlock ip, FsEvent.endOp]
          else []
        let contents : Page :=
          if fileBacked then env.readPage ip offset_into_file else zeroPage
        let mem1 := setmem st.mem mem contents
        if env.mappagesOk then
          some { res := 1, mappings := maps1,
                 pte := setp st.pte (PGROUNDDOWN va) (mappages_value (V2P mem)),
                 mem := mem1, freed := [], fsTrace := trace, tlbFlushed := false }
        else
          some { res := 1, mappings := maps1, pte := st.pte, mem := mem1,
                 freed := [mem], fsTrace := trace, tlbFlushed := false }

/-- The mapping-table loop of page_fault_handler: linear scan for the
first descriptor whose range [addr, PGROUNDUP(addr+length)) contains
va; falling off the end prints Segmentation Fault and returns -1.  The
fuel is the number of entries left to inspect. -/
def pf_loop (env : PFEnv) (st : PFState) (va : Nat) : Nat → Nat → Option PFOut
  | _, 0 =>
    some { res := -1, mappings := st.mappings, pte := st.pte, mem := st.mem,
           freed := [], fsTrace := [], tlbFlushed := false }
  | i, n + 1 =>
    match st.mappings[i]? with
    | none =>
      some { res := -1, mappings := st.mappings, pte := st.pte, mem := st.mem,
             freed := [], fsTrace := [], tlbFlushed := false }
    | some m0 =>
      if m0.addr ≤ va ∧ va < PGROUNDUP (m0.addr + m0.length) then pf_handle env st va i m0
      else pf_loop env st va (i + 1) n

/-- page_fault_handler from sysproc.c.  First the COW test: the PTE at
va exists, carries PTE_COW and is not writable.  On a COW hit: kalloc a
frame (panic on failure), copy the old page byte-wise, repoint the PTE
at the new frame keeping the old flags, with PTE_W set, then clear
PTE_COW, flush the TLB and return 1.  Otherwise fall through to the
mapping-table loop.  none models a kernel panic. -/
def page_fault_handler (env : PFEnv) (st : PFState) (va : Nat) : Option PFOut :=
  match st.pte (PGROUNDDOWN va) with
  | some p =>
    if p &&& PTE_COW ≠ 0 ∧ p &&& PTE_W = 0 then
      match env.kallocRes with
      | none => none
      | some mem =>
        let old_page := P2V (PTE_ADDR p)
        let p1 := (V2P mem ||| PTE_FLAGS p ||| PTE_W) &&& (mask32 ^^^ PTE_COW)
        some { res := 1, mappings := st.mappings,
               pte := setp st.pte (PGROUNDDOWN va) p1,
               mem := setmem st.mem mem (st.mem old_page),
               freed := [], fsTrace := [], tlbFlushed := true }
    else pf_loop env st va 0 st.mappings.length
  | none => pf_loop env st va 0 st.mappings.length

/-- The PTE rewrite fork applies to a present PTE of a private mapping:
clear PTE_W, then set PTE_COW. -/
def cow_upd (p : Nat) : Nat := (p &&& (mask32 ^^^ PTE_W)) ||| PTE_COW

/-- The per-page loop of the fork hook for one private descriptor:
walk the parent PTE for each page of [a, stop); when it is present,
rewrite it with cow_upd, flush the parent TLB, walk-create the child
PTE at the same address (cwOk says whether that allocation succeeds;
failure is a panic, modelled as none) and copy the parent PTE into it.
The fuel is the page count of the range. -/
def fork_pages (cwOk : Nat → Bool) (stop : Nat) :
    Nat → Nat → (Nat → Option Nat) → (Nat → Option Nat) →
    Option ((Nat → Option Nat) × (Nat → Option Nat))
  | 0, _, pp, cp => some (pp, cp)
  | fuel + 1, a, pp, cp =>
    if a < stop then
      match pp (PGROUNDDOWN a) with
      | some p =>
        if p &&& PTE_P ≠ 0 then
          let q := cow_upd p
          if cwOk (PGROUNDDOWN a) then
            fork_pages cwOk stop fuel (a + PGSIZE)
              (setp pp (PGROUNDDOWN a) q) (setp cp (PGROUNDDOWN a) q)
          else none
        else fork_pages cwOk stop fuel (a + PGSIZE) pp cp
      | none => fork_pages cwOk stop fuel (a + PGSIZE) pp cp
    else some (pp, cp)

/-- The mapping section of fork from sysproc.c: for each parent
descriptor, run the COW preparation over its VA range when it is
private, and copy the descriptor into the child at the same index.
Takes the parent table and the parent and child page tables (the child
one as copyuvm left it) and returns both page tables after the loop
along with the child mapping table.  none models the panic on a failed
child PTE allocation. -/
def fork_maps (cwOk : Nat → Bool) :
    List mem_mapping → (Nat → Option Nat) → (Nat → Option Nat) →
    Option ((Nat → Option Nat) × (Nat → Option Nat) × List mem_mapping)
  | [], pp, cp => some (pp, cp, [])
  | m :: rest, pp, cp =>
    if m.flags &&& MAP_PRIVATE ≠ 0 then
      match fork_pages cwOk (m.addr + m.length) ((m.length + PGSIZE - 1) / PGSIZE) m.addr pp cp with
      | none => none
      | some (pp1, cp1) =>
        match fork_maps cwOk rest pp1 cp1 with
        | none => none
        | some (pp2, cp2, cm) => some (pp2, cp2, m :: cm)
    else
      match fork_maps cwOk rest pp cp with
      | none => none
      | some (pp2, cp2, cm) => some (pp2, cp2, m :: cm)

/-- Spec-side predicate for the allocator contract of the spec (section
4.2), written from the words of the spec for comparison with
find_available_address: A is page aligned, [A, A+length) lies inside
the arena, and A does not overlap any existing mapping with the
incumbent end rounded up. -/
def slotFree (maps : List mem_mapping) (length A : Nat) : Prop :=
  A % PGSIZE = 0 ∧ MMAP_AREA_START ≤ A ∧ A + length ≤ MMAP_AREA_END ∧
    overlapsAny maps A length = false

/-- Spec-side predicate listing the sys_mmap validation failures named
by the spec (section 4.3), written from the words of the spec; note it
does not reject setting both MAP_SHARED and MAP_PRIVATE. -/
def mmap_validation_fails (ofile : Int → Bool) (addr : Nat) (length : Int)
    (flags : Nat) (fd offset : Int) : Prop :=
  length ≤ 0 ∨
  (addr ≠ 0 ∧ (toInt32 addr < (MMAP_AREA_START : Int) ∨
    toInt32 addr > (MMAP_AREA_END : Int) - (PGSIZE : Int) ∨ addr % PGSIZE ≠ 0)) ∨
  (flags &&& MAP_SHARED = 0 ∧ flags &&& MAP_PRIVATE = 0) ∨
  (flags &&& MAP_ANONYMOUS ≠ 0 ∧ (fd ≠ -1 ∨ offset ≠ 0)) ∨
  (flags &&& MAP_FIXED ≠ 0 ∧ (addr = 0 ∨ addr % PGSIZE ≠ 0)) ∨
  (flags &&& MAP_ANONYMOUS = 0 ∧ (fd < 0 ∨ fd ≥ NOFILE ∨ ¬ ofile fd))

/-- Concrete fixture: a one-page private anonymous mapping at the
bottom of the arena. -/
def mapA : mem_mapping :=
  { addr := 0x60000000, length := 4096, flags := MAP_PRIVATE ||| MAP_ANONYMOUS,
    fd := -1, originalLength := 4096, allocated := false }

/-- Concrete fixture: a one-page private anonymous mapping two pages
above mapA. -/
def mapB : mem_mapping :=
  { addr := 0x60002000, length := 4096, flags := MAP_PRIVATE ||| MAP_ANONYMOUS,
    fd := -1, originalLength := 4096, allocated := false }

/-- Concrete fixture: munmap oracles with an empty page table. -/
def mumEnv0 : MunmapEnv :=
  { pte := fun _ => none, ofileOpen := fun _ => true, writei_res := fun _ => 0 }

/-- Concrete fixture: a full table of 32 one-page private anonymous
mappings filling the bottom of the arena. -/
def table32 : List mem_mapping :=
  (List.range 32).map fun k =>
    { addr := 0x60000000 + k * 4096, length := 4096,
      flags := MAP_PRIVATE ||| MAP_ANONYMOUS, fd := -1,
      originalLength := 4096, allocated := false }

/-- Concrete fixture: fault-handler oracles where every external call
succeeds. -/
def pfEnvOk : PFEnv :=
  { kallocRes := some 0x80400000, ofileOpen := fun _ => true,
    fileInode := fun fd => fd.toNat + 100, readPage := fun _ _ => fun _ => 7,
    mappagesOk := true }

/-- Concrete fixture: fault-handler oracles where the mappages
insertion fails. -/
def pfEnvNoMap : PFEnv :=
  { kallocRes := some 0x80400000, ofileOpen := fun _ => true,
    fileInode := fun fd => fd.toNat + 100, readPage := fun _ _ => fun _ => 7,
    mappagesOk := false }

/-- Concrete fixture: a two-page GROWSUP private anonymous mapping at
the bottom of the arena. -/
def growMap : mem_mapping :=
  { addr := 0x60000000, length := 8192,
    flags := MAP_PRIVATE ||| MAP_ANONYMOUS ||| MAP_GROWSUP, fd := -1,
    originalLength := 8192, allocated := false }

/-- Concrete fixture: state holding only growMap, with an empty page
table. -/
def growState : PFState :=
  { mappings := [growMap], pte := fun _ => none, mem := fun _ => zeroPage }

/-- Concrete fixture: state holding only mapA, with an empty page
table. -/
def anonState : PFState :=
  { mappings := [mapA], pte := fun _ => none, mem := fun _ => zeroPage }

/-- Concrete fixture: the table produced by a sys_mmap call requesting
a one-page MAP_SHARED file mapping of fd 1 at file offset 4096 (the
offset argument is accepted by validation because the mapping is not
anonymous). -/
def fileMaps : List mem_mapping :=
  (sys_mmap (fun _ => true) [] 0 4096 0 MAP_SHARED 1 4096).2

/-- Concrete fixture: state holding the fileMaps table, with an empty
page table. -/
def fileState : PFState :=
  { mappings := fileMaps, pte := fun _ => none, mem := fun _ => zeroPage }

/-- Concrete fixture: a COW page-table entry: frame 0x12345000 with
present, user and COW set and the writable bit clear. -/
def cowPte : Nat := 0x12345000 ||| PTE_P ||| PTE_U ||| PTE_COW

/-- Concrete fixture: state whose page table holds cowPte at the bottom
of the arena and whose page contents are the constant 3. -/
def cowState : PFState :=
  { mappings := [],
    pte := fun x => if x = 0x60000000 then some cowPte else none,
    mem := fun _ => fun _ => 3 }

/-- Concrete fixture: a present, writable, user parent PTE for the fork
COW preparation. -/
def parPte : Nat := 0x12345000 ||| PTE_P ||| PTE_U ||| PTE_W

/-- Concrete fixture: parent page table holding parPte at the bottom of
the arena. -/
def parPt : Nat → Option Nat := fun x => if x = 0x60000000 then some parPte else none

/-- Concrete fixture: a one-page SHARED file-backed mapping of fd 1
that also carries GROWSUP, at the bottom of the arena. -/
def fileGrowMap : mem_mapping :=
  { addr := 0x60000000, length := 4096, flags := MAP_SHARED ||| MAP_GROWSUP,
    fd := 1, originalLength := 4096, allocated := false }

/-- Concrete fixture: state holding only fileGrowMap, with an empty
page table. -/
def fileGrowState : PFState :=
  { mappings := [fileGrowMap], pte := fun _ => none, mem := fun _ => zeroPage }

theorem and_pow_ne_zero_iff (x k : Nat) : x &&& 2 ^ k ≠ 0 ↔ x.testBit k = true := by
  rw [Nat.and_two_pow]
  cases hx : x.testBit k <;> simp [hx, (Nat.two_pow_pos k).ne']

theorem and_pow_eq_zero_iff (x k : Nat) : x &&& 2 ^ k = 0 ↔ x.testBit k = false := by
  rw [Nat.and_two_pow]
  cases hx : x.testBit k <;> simp [hx, (Nat.two_pow_pos k).ne']

theorem testBit_false_of_mod (x n i : Nat) (h : x % 2 ^ n = 0) (hi : i < n) :
    x.testBit i = false := by
  have hm := Nat.testBit_mod_two_pow x n i
  rw [h, Nat.zero_testBit] at hm
  simp [hi] at hm
  exact hm

theorem testBit_false_of_lt {x n i : Nat} (h : x < 2 ^ n) (hi : n ≤ i) :
    x.testBit i = false :=
  Nat.testBit_lt_two_pow (lt_of_lt_of_le h (Nat.pow_le_pow_right (by norm_num) hi))

theorem PGROUNDDOWN_of_aligned (a : Nat) (h : a % PGSIZE = 0) : PGROUNDDOWN a = a := by
  simp only [PGROUNDDOWN, PGSIZE] at *
  omega

theorem aligned_add_le {a b : Nat} (ha : a % PGSIZE = 0) (hb : b % PGSIZE = 0)
    (h : a < b) : a + PGSIZE ≤ b := by
  simp only [PGSIZE] at *
  omega

theorem cow_upd_testBit (p i : Nat) :
    (cow_upd p).testBit i =
      ((p.testBit i && (decide (i < 32) ^^ decide (1 = i))) || decide (11 = i)) := by
  have h32 : mask32 = 2 ^ 32 - 1 := by norm_num [mask32]
  have h2 : PTE_W = 2 ^ 1 := by norm_num [PTE_W]
  have h800 : PTE_COW = 2 ^ 11 := by norm_num [PTE_COW]
  rw [cow_upd, h32, h2, h800, Nat.testBit_lor, Nat.testBit_land, Nat.testBit_xor,
      Nat.testBit_two_pow_sub_one, Nat.testBit_two_pow, Nat.testBit_two_pow]

theorem cow_upd_W (p : Nat) : cow_upd p &&& PTE_W = 0 := by
  rw [show PTE_W = 2 ^ 1 from by norm_num [PTE_W], and_pow_eq_zero_iff, cow_upd_testBit]
  simp

theorem cow_upd_COW (p : Nat) : cow_upd p &&& PTE_COW ≠ 0 := by
  rw [show PTE_COW = 2 ^ 11 from by norm_num [PTE_COW], and_pow_ne_zero_iff, cow_upd_testBit]
  simp

theorem cow_upd_P (p : Nat) (h : p &&& PTE_P ≠ 0) : cow_upd p &&& PTE_P ≠ 0 := by
  rw [show PTE_P = 2 ^ 0 from by norm_num [PTE_P], and_pow_ne_zero_iff] at h ⊢
  rw [cow_upd_testBit]
  simp [h]

theorem cow_upd_lt (p : Nat) : cow_upd p < 2 ^ 32 := by
  have h1 : p &&& (mask32 ^^^ PTE_W) < 2 ^ 32 :=
    lt_of_le_of_lt Nat.and_le_right (by decide)
  have h2 : PTE_COW < 2 ^ 32 := by decide
  exact Nat.bitwise_lt_two_pow h1 h2

theorem cow_upd_idem (p : Nat) : cow_upd (cow_upd p) = cow_upd p := by
  apply Nat.eq_of_testBit_eq
  intro i
  simp only [cow_upd_testBit]
  generalize p.testBit i = x
  generalize (decide (i < 32) ^^ decide (1 = i)) = n
  generalize decide (11 = i) = c
  cases x <;> cases n <;> cases c <;> rfl

theorem cow_upd_eq_self (p : Nat) (hlt : p < 2 ^ 32) (hW : p &&& PTE_W = 0)
    (hC : p &&& PTE_COW ≠ 0) : cow_upd p = p := by
  have hW1 : p.testBit 1 = false := by
    rw [show PTE_W = 2 ^ 1 from by norm_num [PTE_W], and_pow_eq_zero_iff] at hW
    exact hW
  have hC1 : p.testBit 11 = true := by
    rw [show PTE_COW = 2 ^ 11 from by norm_num [PTE_COW], and_pow_ne_zero_iff] at hC
    exact hC
  apply Nat.eq_of_testBit_eq
  intro i
  rw [cow_upd_testBit]
  by_cases h32 : i < 32
  · by_cases h1 : (1 : Nat) = i
    · subst h1
      simp [hW1]
    · by_cases h11 : (11 : Nat) = i
      · subst h11
        simp [hC1]
      · simp [h32, h1, h11]
  · have hge : 32 ≤ i := Nat.le_of_not_lt h32
    have hp : p.testBit i = false := testBit_false_of_lt hlt hge
    have d32 : decide (i < 32) = false := by simp [h32]
    have d1 : decide ((1 : Nat) = i) = false := by simp only [decide_eq_false_iff_not]; omega
    have d11 : decide ((11 : Nat) = i) = false := by simp only [decide_eq_false_iff_not]; omega
    rw [d32, d1, d11, hp]
    rfl

theorem cow_upd_frame (p : Nat) : PTE_ADDR (cow_upd p) = PTE_ADDR p := by
  have hm : (0xFFFFF000 : Nat) = (2 ^ 32 - 1) ^^^ (2 ^ 12 - 1) := by decide
  apply Nat.eq_of_testBit_eq
  intro i
  rw [PTE_ADDR, PTE_ADDR, Nat.testBit_land, Nat.testBit_land, cow_upd_testBit, hm,
      Nat.testBit_xor, Nat.testBit_two_pow_sub_one, Nat.testBit_two_pow_sub_one]
  by_cases h12 : i < 12
  · simp [h12, (by omega : i < 32)]
  · by_cases h32 : i < 32
    · have d1 : decide ((1 : Nat) = i) = false := by
        simp only [decide_eq_false_iff_not]
        omega
      have d11 : decide ((11 : Nat) = i) = false := by
        simp only [decide_eq_false_iff_not]
        omega
      simp [h12, h32, d1, d11]
    · simp [h12, h32]

theorem install_pte_testBit (A p i : Nat) :
    ((A ||| PTE_FLAGS p ||| PTE_W) &&& (mask32 ^^^ PTE_COW)).testBit i =
      ((A.testBit i || (p.testBit i && decide (i < 12)) || decide (1 = i)) &&
        (decide (i < 32) ^^ decide (11 = i))) := by
  have hf : PTE_FLAGS p = p &&& (2 ^ 12 - 1) := by norm_num [PTE_FLAGS]
  have h32 : mask32 = 2 ^ 32 - 1 := by norm_num [mask32]
  have h2 : PTE_W = 2 ^ 1 := by norm_num [PTE_W]
  have h800 : PTE_COW = 2 ^ 11 := by norm_num [PTE_COW]
  rw [hf, h32, h2, h800, Nat.testBit_land, Nat.testBit_xor, Nat.testBit_lor,
      Nat.testBit_lor, Nat.testBit_land, Nat.testBit_two_pow,
      Nat.testBit_two_pow_sub_one, Nat.testBit_two_pow_sub_one, Nat.testBit_two_pow]

theorem install_pte_W (A p : Nat) :
    ((A ||| PTE_FLAGS p ||| PTE_W) &&& (mask32 ^^^ PTE_COW)) &&& PTE_W ≠ 0 := by
  rw [show PTE_W = 2 ^ 1 from by norm_num [PTE_W]]
  rw [and_pow_ne_zero_iff, show (2 : Nat) ^ 1 = PTE_W from by norm_num [PTE_W]]
  rw [install_pte_testBit]
  simp

theorem install_pte_COW (A p : Nat) :
    ((A ||| PTE_FLAGS p ||| PTE_W) &&& (mask32 ^^^ PTE_COW)) &&& PTE_COW = 0 := by
  rw [show PTE_COW = 2 ^ 11 from by norm_num [PTE_COW]]
  rw [and_pow_eq_zero_iff, show (2 : Nat) ^ 11 = PTE_COW from by norm_num [PTE_COW]]
  rw [install_pte_testBit]
  simp

theorem install_pte_addr (A p : Nat) (hA : A % 2 ^ 12 = 0) (hA32 : A < 2 ^ 32) :
    PTE_ADDR ((A ||| PTE_FLAGS p ||| PTE_W) &&& (mask32 ^^^ PTE_COW)) = A := by
  have hm : (0xFFFFF000 : Nat) = (2 ^ 32 - 1) ^^^ (2 ^ 12 - 1) := by decide
  apply Nat.eq_of_testBit_eq
  intro i
  rw [PTE_ADDR, Nat.testBit_land, install_pte_testBit, hm, Nat.testBit_xor,
      Nat.testBit_two_pow_sub_one, Nat.testBit_two_pow_sub_one]
  by_cases h12 : i < 12
  · have hAi : A.testBit i = false := testBit_false_of_mod A 12 i hA h12
    simp [h12, hAi, (by omega : i < 32)]
  · by_cases h32 : i < 32
    · have d1 : decide ((1 : Nat) = i) = false := by
        simp only [decide_eq_false_iff_not]
        omega
      have d11 : decide ((11 : Nat) = i) = false := by
        simp only [decide_eq_false_iff_not]
        omega
      simp [h12, h32, d1, d11]
    · have hAi : A.testBit i = false := testBit_false_of_lt hA32 (by omega)
      simp [h12, h32, hAi]

theorem install_pte_flags (A p : Nat) (hA : A % 2 ^ 12 = 0) :
    PTE_FLAGS ((A ||| PTE_FLAGS p ||| PTE_W) &&& (mask32 ^^^ PTE_COW)) =
      (PTE_FLAGS p ||| PTE_W) &&& (0xFFF ^^^ PTE_COW) := by
  have hf : PTE_FLAGS p = p &&& (2 ^ 12 - 1) := by norm_num [PTE_FLAGS]
  have h2 : PTE_W = 2 ^ 1 := by norm_num [PTE_W]
  have h800 : PTE_COW = 2 ^ 11 := by norm_num [PTE_COW]
  have hfff : (0xFFF : Nat) = 2 ^ 12 - 1 := by decide
  apply Nat.eq_of_testBit_eq
  intro i
  rw [PTE_FLAGS, Nat.testBit_land, install_pte_testBit]
  rw [hf, h2, h800, hfff, Nat.testBit_land, Nat.testBit_xor, Nat.testBit_lor,
      Nat.testBit_land, Nat.testBit_two_pow, Nat.testBit_two_pow_sub_one,
      Nat.testBit_two_pow]
  by_cases h12 : i < 12
  · have hAi : A.testBit i = false := testBit_false_of_mod A 12 i hA h12
    simp [h12, hAi, (by omega : i < 32)]
  · have d1 : decide ((1 : Nat) = i) = false := by
      simp only [decide_eq_false_iff_not]
      omega
    have d11 : decide ((11 : Nat) = i) = false := by
      simp only [decide_eq_false_iff_not]
      omega
    simp [h12, d1, d11]

/-- C1: the claim says munmap(addr, length) on a table whose descriptor
at any index i fully contains [addr, addr+length) returns 0, removes
that descriptor and decrements num_mappings by one, leaving the other
descriptors unchanged.  The code disagrees: the shift-down, the
decrement and the loop break sit outside the containment check, so
only index 0 is ever inspected.  Here the containing descriptor mapB
sits at index 1; the call returns -1, removes the unrelated descriptor
mapA at index 0 and leaves mapB in place. -/
theorem c1_munmap_removes_wrong_descriptor :
    sys_munmap mumEnv0 [mapA, mapB] 0x60002000 4096 = some (-1, [mapB]) ∧
      (mapB.addr ≤ 0x60002000 ∧ 0x60002000 + 4096 ≤ mapB.addr + mapB.length) := by
  exact ⟨by decide, by decide⟩

/-- C2: the claim says a munmap call whose range no live descriptor
fully contains returns -1 with the table and num_mappings unchanged.
The code does return -1, but because the shift-down and decrement sit
outside the containment check it also removes the first descriptor:
on the one-entry table [mapA], munmap of an uncontained range empties
the table. -/
theorem c2_munmap_not_found_still_mutates :
    sys_munmap mumEnv0 [mapA] 0x60100000 4096 = some (-1, []) ∧
      ¬ (mapA.addr ≤ 0x60100000 ∧ 0x60100000 + 4096 ≤ mapA.addr + mapA.length) := by
  exact ⟨by decide, by decide⟩

/-- C3: the claim says mmap succeeds only while num_mappings is below
MAX_MAPPINGS = 32, so the 33rd one-page PRIVATE|ANONYMOUS call on a
full table returns -1 without mutating state.  sys_mmap performs no
capacity check at all: on the 32-entry table the 33rd call succeeds,
returns the next arena address and stores a 33rd descriptor (an
out-of-bounds array write in the C), violating num_mappings <= 32. -/
theorem c3_mmap_no_capacity_check :
    table32.length = 32 ∧
    (sys_mmap (fun _ => true) table32 0 4096 0 (MAP_PRIVATE ||| MAP_ANONYMOUS) (-1) 0).1
      = 0x60020000 ∧
    (sys_mmap (fun _ => true) table32 0 4096 0 (MAP_PRIVATE ||| MAP_ANONYMOUS) (-1) 0).2.length
      = 33 := by
  exact ⟨by decide, by decide, by decide⟩

/-- C5: the claim says that when the mappages insertion fails after the
frame was allocated, the handler frees the frame and returns -1, never
reporting the fault resolved.  The code does free the frame, but the
else-less fallthrough after the kfree still executes the return 1: on
a one-page anonymous mapping with mappages failing, the handler frees
the frame yet reports the fault resolved. -/
theorem c5_mappages_failure_reports_resolved :
    (page_fault_handler pfEnvNoMap anonState 0x60000000).map
      (fun o => (o.res, o.freed, o.pte 0x60000000)) = some (1, [0x80400000], none) := by
  decide

/-- C4 counterexample: the claim says a GROWSUP descriptor grows only
if the faulting va is at or beyond the current end of the mapping.  On
the two-page mapping growMap, a fault at its base address - strictly
below the end 0x60002000 - still grows length from 8192 to 12288. -/
theorem c4_counterexample_grow_below_end :
    (page_fault_handler pfEnvOk growState 0x60000000).map
      (fun o => (o.res, o.mappings.map fun m => m.length)) = some (1, [12288]) ∧
    (0x60000000 : Nat) < growMap.addr + growMap.length := by
  exact ⟨by decide, by decide⟩

/-- C6 counterexample: the claim says the file offset read is
round_down_page(va) minus addr plus the recorded offset of the
descriptor.  fileMaps was created by mmap with offset argument 4096,
so the claim predicts a readi at offset 0 + 4096 = 4096; the handler
reads at offset 0 because sys_mmap never records the offset argument
and the fill ignores it. -/
theorem c6_counterexample_offset_ignored :
    (page_fault_handler pfEnvOk fileState 0x60000000).map (fun o => o.fsTrace) =
      some [FsEvent.beginOp, FsEvent.ilock 101, FsEvent.readi 101 0 4096,
            FsEvent.iunlock 101, FsEvent.endOp] ∧
    (0 : Int) ≠ 0 + 4096 := by
  exact ⟨by decide, by decide⟩

/-- C9 counterexample: the claim asserts unconditionally that on an
empty table find_available_address returns MMAP_AREA_START, yet for a
length exceeding the arena size no address fits and the allocator
returns the sentinel 0 instead. -/
theorem c9_counterexample_empty_table :
    find_available_address [] (2 ^ 29 + 1) = 0 ∧ (0 : Nat) ≠ MMAP_AREA_START := by
  exact ⟨by decide, by decide⟩

theorem faa_loop_spec (maps : List mem_mapping) (length : Nat) :
    ∀ fuel addr, 0 < addr → addr % PGSIZE = 0 →
      MMAP_AREA_END < addr + fuel * PGSIZE →
      ((faa_loop maps length fuel addr ≠ 0 →
        (faa_loop maps length fuel addr % PGSIZE = 0 ∧
         addr ≤ faa_loop maps length fuel addr ∧
         faa_loop maps length fuel addr + length ≤ MMAP_AREA_END ∧
         overlapsAny maps (faa_loop maps length fuel addr) length = false) ∧
        (∀ A, addr ≤ A → A % PGSIZE = 0 → A + length ≤ MMAP_AREA_END →
          overlapsAny maps A length = false → faa_loop maps length fuel addr ≤ A)) ∧
      (faa_loop maps length fuel addr = 0 →
        ∀ A, addr ≤ A → A % PGSIZE = 0 → A + length ≤ MMAP_AREA_END →
          overlapsAny maps A length = true)) := by
  intro fuel
  induction fuel with
  | zero =>
    intro addr hpos hal hbound
    simp only [Nat.zero_mul, Nat.add_zero] at hbound
    refine ⟨fun hne => absurd rfl hne, fun _ A hA _ hAb => ?_⟩
    exfalso
    omega
  | succ fuel ih =>
    intro addr hpos hal hbound
    have hbound' : MMAP_AREA_END < (addr + PGSIZE) + fuel * PGSIZE := by
      have : addr + (fuel + 1) * PGSIZE = (addr + PGSIZE) + fuel * PGSIZE := by ring
      omega
    have hal' : (addr + PGSIZE) % PGSIZE = 0 := by
      simp only [PGSIZE] at hal ⊢
      omega
    by_cases hle : addr + length ≤ MMAP_AREA_END
    · cases hov : overlapsAny maps addr length with
      | true =>
        have hr : faa_loop maps length (fuel + 1) addr = faa_loop maps length fuel (addr + PGSIZE) := by
          simp [faa_loop, hle, hov]
        have ih' := ih (addr + PGSIZE) (by omega) hal' hbound'
        rw [hr]
        constructor
        · intro hne
          obtain ⟨⟨h1, h2, h3, h4⟩, hmin⟩ := ih'.1 hne
          refine ⟨⟨h1, by omega, h3, h4⟩, ?_⟩
          intro A hA hAal hAb hAov
          rcases Nat.eq_or_lt_of_le hA with he | hlt
          · exfalso
            rw [← he] at hAov
            rw [hov] at hAov
            exact absurd hAov (by decide)
          · exact hmin A (aligned_add_le hal hAal hlt) hAal hAb hAov
        · intro h0 A hA hAal hAb
          rcases Nat.eq_or_lt_of_le hA with he | hlt
          · rw [← he]
            exact hov
          · exact ih'.2 h0 A (aligned_add_le hal hAal hlt) hAal hAb
      | false =>
        have hr : faa_loop maps length (fuel + 1) addr = addr := by
          simp [faa_loop, hle, hov]
        rw [hr]
        constructor
        · intro _
          exact ⟨⟨hal, Nat.le_refl _, hle, hov⟩, fun A hA _ _ _ => hA⟩
        · intro h0
          exfalso
          omega
    · have hr : faa_loop maps length (fuel + 1) addr = 0 := by
        simp [faa_loop, hle]
      rw [hr]
      refine ⟨fun hne => absurd rfl hne, fun _ A hA _ hAb => ?_⟩
      exfalso
      omega

/-- C9 amended: find_available_address returns the least page-aligned
address A with [A, A+length) inside the arena and no overlap against
the existing mappings (incumbent ends rounded up, candidate end raw),
and returns the sentinel 0 exactly when no such address exists; on an
empty table it returns MMAP_AREA_START whenever length fits in the
arena (and 0 otherwise, which is where the original claim fails). -/
theorem c9_find_available_address_first_fit (maps : List mem_mapping) (length : Nat)
    (hpos : 0 < length) :
    (find_available_address maps length ≠ 0 →
      slotFree maps length (find_available_address maps length) ∧
      ∀ A, slotFree maps length A → find_available_address maps length ≤ A) ∧
    (find_available_address maps length = 0 → ∀ A, ¬ slotFree maps length A) ∧
    (maps = [] → length ≤ MMAP_AREA_END - MMAP_AREA_START →
      find_available_address maps length = MMAP_AREA_START) := by
  have h := faa_loop_spec maps length ((MMAP_AREA_END - MMAP_AREA_START) / PGSIZE + 1)
    MMAP_AREA_START (by decide) (by decide) (by decide)
  have hfaa : find_available_address maps length =
      faa_loop maps length ((MMAP_AREA_END - MMAP_AREA_START) / PGSIZE + 1) MMAP_AREA_START :=
    rfl
  rw [← hfaa] at h
  refine ⟨?_, ?_, ?_⟩
  · intro hne
    obtain ⟨⟨h1, h2, h3, h4⟩, hmin⟩ := h.1 hne
    exact ⟨⟨h1, h2, h3, h4⟩, fun A hA => hmin A hA.2.1 hA.1 hA.2.2.1 hA.2.2.2⟩
  · intro h0 A hA
    have hcontra := h.2 h0 A hA.2.1 hA.1 hA.2.2.1
    rw [hA.2.2.2] at hcontra
    exact Bool.false_ne_true hcontra
  · intro hemp hlen
    subst hemp
    have hbnd : MMAP_AREA_START + length ≤ MMAP_AREA_END := by
      simp only [MMAP_AREA_START, MMAP_AREA_END] at hlen ⊢
      omega
    have hovempty : overlapsAny [] MMAP_AREA_START length = false := rfl
    by_cases h0 : find_available_address [] length = 0
    · exfalso
      have := h.2 h0 MMAP_AREA_START (Nat.le_refl _) (by decide) hbnd
      rw [hovempty] at this
      exact Bool.false_ne_true this
    · obtain ⟨⟨_, hge, _, _⟩, hmin⟩ := h.1 h0
      have hle := hmin MMAP_AREA_START (Nat.le_refl _) (by decide) hbnd hovempty
      omega

/-- C10: every mmap call failing one of the listed validation checks
(non-positive length; non-zero hint below the arena, above arena top
minus a page, or misaligned; neither SHARED nor PRIVATE; ANONYMOUS
with fd different from -1 or non-zero offset; FIXED with a zero or
misaligned hint; non-ANONYMOUS with an invalid or unopened fd) returns
-1 and leaves the mapping table unchanged; and a call that sets both
SHARED and PRIVATE is not rejected on that ground - if it also passes
every listed check and placement succeeds, the call does not return
-1. -/
theorem c10_mmap_validation (ofile : Int → Bool) (maps : List mem_mapping)
    (addr : Nat) (length prot : Int) (flags : Nat) (fd offset : Int) :
    (mmap_validation_fails ofile addr length flags fd offset →
      sys_mmap ofile maps addr length prot flags fd offset = (-1, maps)) ∧
    (flags &&& MAP_SHARED ≠ 0 → flags &&& MAP_PRIVATE ≠ 0 →
      ¬ mmap_validation_fails ofile addr length flags fd offset →
      (flags &&& MAP_FIXED ≠ 0 ∨ find_available_address maps length.toNat ≠ 0) →
      (sys_mmap ofile maps addr length prot flags fd offset).1 ≠ -1) := by
  constructor
  · intro hf
    by_cases h1 : length ≤ 0
    · simp [sys_mmap, h1]
    by_cases h2 : addr ≠ 0 ∧ (toInt32 addr < (MMAP_AREA_START : Int) ∨
        toInt32 addr > (MMAP_AREA_END : Int) - (PGSIZE : Int) ∨ addr % PGSIZE ≠ 0)
    · simp [sys_mmap, h1, h2]
    by_cases h3 : flags &&& MAP_SHARED = 0 ∧ flags &&& MAP_PRIVATE = 0
    · have h3n : ¬ (flags &&& MAP_SHARED ≠ 0 ∨ flags &&& MAP_PRIVATE ≠ 0) := by
        rcases h3 with ⟨ha, hb⟩
        intro hcon
        rcases hcon with hcon | hcon
        · exact hcon ha
        · exact hcon hb
      simp [sys_mmap, h1, h2, h3n]
    by_cases h4 : flags &&& MAP_ANONYMOUS ≠ 0 ∧ (fd ≠ -1 ∨ offset ≠ 0)
    · simp [sys_mmap, h1, h2, h4]
    by_cases h5 : flags &&& MAP_FIXED ≠ 0 ∧ (addr = 0 ∨ addr % PGSIZE ≠ 0)
    · simp [sys_mmap, h1, h2, h5]
    by_cases h6 : flags &&& MAP_ANONYMOUS = 0 ∧ (fd < 0 ∨ fd ≥ NOFILE ∨ ¬ ofile fd)
    · have h3o : flags &&& MAP_SHARED ≠ 0 ∨ flags &&& MAP_PRIVATE ≠ 0 := by
        by_cases hS : flags &&& MAP_SHARED = 0
        · right
          intro hPz
          exact h3 ⟨hS, hPz⟩
        · left
          exact hS
      simp only [sys_mmap, if_neg h1, if_neg h2, if_neg (not_not_intro h3o), if_neg h4,
        if_neg h5, if_pos h6]
    exfalso
    rcases hf with h | h | h | h | h | h
    · exact h1 h
    · exact h2 h
    · exact h3 h
    · exact h4 h
    · exact h5 h
    · exact h6 h
  · intro hs hp hnf hplace
    have h1 : ¬ length ≤ 0 := fun h => hnf (Or.inl h)
    have h2 : ¬ (addr ≠ 0 ∧ (toInt32 addr < (MMAP_AREA_START : Int) ∨
        toInt32 addr > (MMAP_AREA_END : Int) - (PGSIZE : Int) ∨ addr % PGSIZE ≠ 0)) :=
      fun h => hnf (Or.inr (Or.inl h))
    have h3 : flags &&& MAP_SHARED ≠ 0 ∨ flags &&& MAP_PRIVATE ≠ 0 := Or.inl hs
    have h4 : ¬ (flags &&& MAP_ANONYMOUS ≠ 0 ∧ (fd ≠ -1 ∨ offset ≠ 0)) :=
      fun h => hnf (Or.inr (Or.inr (Or.inr (Or.inl h))))
    have h5 : ¬ (flags &&& MAP_FIXED ≠ 0 ∧ (addr = 0 ∨ addr % PGSIZE ≠ 0)) :=
      fun h => hnf (Or.inr (Or.inr (Or.inr (Or.inr (Or.inl h)))))
    have h6 : ¬ (flags &&& MAP_ANONYMOUS = 0 ∧ (fd < 0 ∨ fd ≥ NOFILE ∨ ¬ ofile fd)) :=
      fun h => hnf (Or.inr (Or.inr (Or.inr (Or.inr (Or.inr h)))))
    by_cases hfix : flags &&& MAP_FIXED ≠ 0
    · simp only [sys_mmap, if_neg h1, if_neg h2, if_neg (not_not_intro h3), if_neg h4,
        if_neg h5, if_neg h6, if_pos hfix]
      show ((addr : Nat) : Int) ≠ -1
      intro hcon
      have hnn : (0 : Int) ≤ (addr : Int) := Int.natCast_nonneg addr
      omega
    · have hna : find_available_address maps length.toNat ≠ 0 := by
        rcases hplace with h | h
        · exact absurd h hfix
        · exact h
      simp only [sys_mmap, if_neg h1, if_neg h2, if_neg (not_not_intro h3), if_neg h4,
        if_neg h5, if_neg h6, if_neg hfix, if_neg hna]
      show ((find_available_address maps length.toNat : Nat) : Int) ≠ -1
      intro hcon
      have hnn : (0 : Int) ≤ (find_available_address maps length.toNat : Int) :=
        Int.natCast_nonneg _
      omega

/-- C7: on a faulting va whose PTE exists, is present, carries PTE_COW
and is not writable, the handler allocates the fresh frame mem, copies
the old page byte-wise into it, rewrites the PTE to point at the new
frame with the original flags OR PTE_W and with PTE_COW cleared (other
PTEs untouched), flushes the TLB and returns 1. -/
theorem c7_cow_fault (env : PFEnv) (st : PFState) (va p mem : Nat)
    (hp : st.pte (PGROUNDDOWN va) = some p)
    (hP : p &&& PTE_P ≠ 0)
    (hC : p &&& PTE_COW ≠ 0)
    (hW : p &&& PTE_W = 0)
    (hk : env.kallocRes = some mem)
    (hmal : mem % PGSIZE = 0)
    (hmlo : KERNBASE ≤ mem)
    (hmhi : mem < 2 ^ 32) :
    ∃ np,
      page_fault_handler env st va =
        some { res := 1, mappings := st.mappings,
               pte := setp st.pte (PGROUNDDOWN va) np,
               mem := setmem st.mem mem (st.mem (P2V (PTE_ADDR p))),
               freed := [], fsTrace := [], tlbFlushed := true } ∧
      PTE_ADDR np = V2P mem ∧
      PTE_FLAGS np = (PTE_FLAGS p ||| PTE_W) &&& (0xFFF ^^^ PTE_COW) ∧
      np &&& PTE_W ≠ 0 ∧
      np &&& PTE_COW = 0 ∧
      setp st.pte (PGROUNDDOWN va) np (PGROUNDDOWN va) = some np ∧
      (∀ x, x ≠ PGROUNDDOWN va → setp st.pte (PGROUNDDOWN va) np x = st.pte x) ∧
      setmem st.mem mem (st.mem (P2V (PTE_ADDR p))) mem = st.mem (P2V (PTE_ADDR p)) := by
  have hv : V2P mem = mem - KERNBASE := by
    simp only [V2P, sub32]
    rw [if_pos hmlo]
  have hA : V2P mem % 2 ^ 12 = 0 := by
    rw [hv, (by norm_num : (2 : Nat) ^ 12 = 4096)]
    simp only [KERNBASE] at hmlo ⊢
    simp only [PGSIZE] at hmal
    omega
  have hA32 : V2P mem < 2 ^ 32 := by
    rw [hv, (by norm_num : (2 : Nat) ^ 32 = 4294967296)]
    have hm32 : mem < 4294967296 := by
      rw [(by norm_num : (2 : Nat) ^ 32 = 4294967296)] at hmhi
      exact hmhi
    omega
  refine ⟨(V2P mem ||| PTE_FLAGS p ||| PTE_W) &&& (mask32 ^^^ PTE_COW), ?_, ?_, ?_, ?_, ?_, ?_, ?_, ?_⟩
  · simp [page_fault_handler, hp, hC, hW, hk]
  · exact install_pte_addr (V2P mem) p hA hA32
  · exact install_pte_flags (V2P mem) p hA
  · exact install_pte_W (V2P mem) p
  · exact install_pte_COW (V2P mem) p
  · simp [setp]
  · intro x hx
    simp [setp, hx]
  · simp [setmem]

theorem pfh_to_loop (env : PFEnv) (st : PFState) (va : Nat)
    (hcow : ∀ p, st.pte (PGROUNDDOWN va) = some p →
      ¬ (p &&& PTE_COW ≠ 0 ∧ p &&& PTE_W = 0)) :
    page_fault_handler env st va = pf_loop env st va 0 st.mappings.length := by
  cases hpte : st.pte (PGROUNDDOWN va) with
  | none => simp [page_fault_handler, hpte]
  | some p => simp [page_fault_handler, hpte, hcow p hpte]

theorem pf_loop_skip (env : PFEnv) (st : PFState) (va : Nat) :
    ∀ n j i d, st.mappings[i]? = some d →
      (∀ k, j ≤ k → k < i → ∀ mk, st.mappings[k]? = some mk →
        ¬ (mk.addr ≤ va ∧ va < PGROUNDUP (mk.addr + mk.length))) →
      j ≤ i → i < j + n →
      (d.addr ≤ va ∧ va < PGROUNDUP (d.addr + d.length)) →
      pf_loop env st va j n = pf_handle env st va i d := by
  intro n
  induction n with
  | zero =>
    intro j i d _ _ hji hin _
    exfalso
    omega
  | succ n ih =>
    intro j i d hi hskip hji hin hmatch
    rcases Nat.eq_or_lt_of_le hji with he | hlt
    · subst he
      simp [pf_loop, hi, hmatch]
    · have hlen : i < st.mappings.length := by
        rcases List.getElem?_eq_some.mp hi with ⟨h, _⟩
        exact h
      have hmj : st.mappings[j]? = some st.mappings[j] :=
        List.getElem?_eq_getElem (by omega)
      have hnomatch := hskip j (Nat.le_refl j) hlt (st.mappings[j]) hmj
      have hr : pf_loop env st va j (n + 1) = pf_loop env st va (j + 1) n := by
        simp only [pf_loop, hmj]
        rw [if_neg hnomatch]
      rw [hr]
      exact ih (j + 1) i d hi (fun k hk1 hk2 => hskip k (by omega) hk2) hlt (by omega) hmatch

/-- C4 amended: on a page fault serviced through the first matching
descriptor d, when d has MAP_GROWSUP the length grows by exactly one
page if and only if the gap check passes - PGSIZE is strictly below
next_mapping_start minus end_of_mapping, where end_of_mapping is
round_up_page(addr+length) plus a page and next_mapping_start is the
first descriptor by table index whose base is at or above that point
(0xFFFFFFFF if none); the growth does not depend on va being at or
beyond the current end.  When the gap check fails the handler breaks
out of the loop and returns -1 unhandled even when va lies within the
old bounds, leaving the table and page table unchanged. -/
theorem c4_growsup_extension (env : PFEnv) (st : PFState) (va i : Nat)
    (d : mem_mapping) (mem : Nat)
    (hcow : ∀ p, st.pte (PGROUNDDOWN va) = some p →
      ¬ (p &&& PTE_COW ≠ 0 ∧ p &&& PTE_W = 0))
    (hi : st.mappings[i]? = some d)
    (hskip : ∀ k, k < i → ∀ mk, st.mappings[k]? = some mk →
      ¬ (mk.addr ≤ va ∧ va < PGROUNDUP (mk.addr + mk.length)))
    (hmatch : d.addr ≤ va ∧ va < PGROUNDUP (d.addr + d.length))
    (hgrow : d.flags &&& MAP_GROWSUP ≠ 0)
    (hfd : d.fd > 0 → env.ofileOpen d.fd = true)
    (hk : env.kallocRes = some mem) :
    (PGSIZE < sub32 (growsup_scan st.mappings (add32 (PGROUNDUP (d.addr + d.length)) PGSIZE))
        (add32 (PGROUNDUP (d.addr + d.length)) PGSIZE) →
      (page_fault_handler env st va).map (fun o => (o.res, o.mappings)) =
        some (1, st.mappings.set i { d with length := d.length + PGSIZE })) ∧
    (sub32 (growsup_scan st.mappings (add32 (PGROUNDUP (d.addr + d.length)) PGSIZE))
        (add32 (PGROUNDUP (d.addr + d.length)) PGSIZE) ≤ PGSIZE →
      page_fault_handler env st va =
        some { res := -1, mappings := st.mappings, pte := st.pte, mem := st.mem,
               freed := [], fsTrace := [], tlbFlushed := false }) := by
  have hlen : i < st.mappings.length := by
    rcases List.getElem?_eq_some.mp hi with ⟨h, _⟩
    exact h
  have hloop : page_fault_handler env st va = pf_handle env st va i d := by
    rw [pfh_to_loop env st va hcow]
    exact pf_loop_skip env st va st.mappings.length 0 i d hi
      (fun k _ hk2 => hskip k hk2) (Nat.zero_le i) (by omega) hmatch
  have hfdcond : ¬ (({ d with allocated := true } : mem_mapping).fd > 0 ∧
      ¬ env.ofileOpen ({ d with allocated := true } : mem_mapping).fd = true) := by
    intro hcon
    exact hcon.2 (hfd hcon.1)
  constructor
  · intro hroom
    rw [hloop]
    unfold pf_handle
    rw [if_neg hfdcond, hk]
    simp only
    rw [if_pos (by simpa using hgrow)]
    rw [if_neg (by simpa using Nat.not_le.mpr hroom)]
    cases hm : env.mappagesOk <;> simp [hm]
  · intro hnoroom
    rw [hloop]
    unfold pf_handle
    rw [if_neg hfdcond, hk]
    simp only
    rw [if_pos (by simpa using hgrow)]
    rw [if_pos hnoroom]

/-- C6 amended: a page fault serviced on a non-anonymous mapping whose
fd is positive and open reads exactly one page from the backing inode
under a file-system transaction with the inode locked - the event
trace is begin_op, ilock, one readi of PGSIZE bytes, iunlock, end_op -
at file offset round_down_page(va) minus addr; the mmap offset
argument contributes nothing because sys_mmap never records it.  The
read data is placed in the freshly allocated frame and the frame is
installed at round_down_page(va).  The theorem covers GROWSUP
descriptors as well: the serviced-fault hypothesis asks their room
check to pass (otherwise the handler breaks out unhandled, see C4),
the length first grows by one page, and the identical read happens. -/
theorem c6_file_backed_fill (env : PFEnv) (st : PFState) (va i : Nat)
    (d : mem_mapping) (mem : Nat)
    (hcow : ∀ p, st.pte (PGROUNDDOWN va) = some p →
      ¬ (p &&& PTE_COW ≠ 0 ∧ p &&& PTE_W = 0))
    (hi : st.mappings[i]? = some d)
    (hskip : ∀ k, k < i → ∀ mk, st.mappings[k]? = some mk →
      ¬ (mk.addr ≤ va ∧ va < PGROUNDUP (mk.addr + mk.length)))
    (hmatch : d.addr ≤ va ∧ va < PGROUNDUP (d.addr + d.length))
    (hanon : d.flags &&& MAP_ANONYMOUS = 0)
    (hserviced : d.flags &&& MAP_GROWSUP ≠ 0 →
      PGSIZE < sub32 (growsup_scan st.mappings (add32 (PGROUNDUP (d.addr + d.length)) PGSIZE))
        (add32 (PGROUNDUP (d.addr + d.length)) PGSIZE))
    (hfdpos : d.fd > 0)
    (hopen : env.ofileOpen d.fd = true)
    (hk : env.kallocRes = some mem)
    (hmp : env.mappagesOk = true) :
    page_fault_handler env st va =
      some { res := 1,
             mappings := if d.flags &&& MAP_GROWSUP ≠ 0 then
                 st.mappings.set i { d with length := d.length + PGSIZE }
               else st.mappings,
             pte := setp st.pte (PGROUNDDOWN va) (mappages_value (V2P mem)),
             mem := setmem st.mem mem
               (env.readPage (env.fileInode d.fd) (toInt32 (PGROUNDDOWN va) - toInt32 d.addr)),
             freed := [],
             fsTrace := [FsEvent.beginOp, FsEvent.ilock (env.fileInode d.fd),
               FsEvent.readi (env.fileInode d.fd)
                 (toInt32 (PGROUNDDOWN va) - toInt32 d.addr) PGSIZE,
               FsEvent.iunlock (env.fileInode d.fd), FsEvent.endOp],
             tlbFlushed := false } := by
  have hfdcond : ¬ (({ d with allocated := true } : mem_mapping).fd > 0 ∧
      ¬ env.ofileOpen ({ d with allocated := true } : mem_mapping).fd = true) := by
    intro hcon
    exact hcon.2 hopen
  have hloop : page_fault_handler env st va = pf_handle env st va i d := by
    rw [pfh_to_loop env st va hcow]
    have hlen : i < st.mappings.length := by
      rcases List.getElem?_eq_some.mp hi with ⟨h, _⟩
      exact h
    exact pf_loop_skip env st va st.mappings.length 0 i d hi
      (fun k _ hk2 => hskip k hk2) (Nat.zero_le i) (by omega) hmatch
  rw [hloop]
  unfold pf_handle
  rw [if_neg hfdcond, hk]
  simp only
  by_cases hg : d.flags &&& MAP_GROWSUP ≠ 0
  · rw [if_pos (by simpa using hg)]
    rw [if_neg (by simpa using Nat.not_le.mpr (hserviced hg))]
    simp [hanon, hfdpos, hmp, hg]
  · rw [if_neg (by simpa using hg)]
    simp [hanon, hfdpos, hmp, hg]

theorem pages_fuel (addr len : Nat) :
    addr + len ≤ addr + (len + PGSIZE - 1) / PGSIZE * PGSIZE := by
  simp only [PGSIZE]
  omega

theorem fork_pages_cases (cwOk : Nat → Bool) (stop : Nat) :
    ∀ fuel a pp cp pp1 cp1, a % PGSIZE = 0 →
      fork_pages cwOk stop fuel a pp cp = some (pp1, cp1) →
      ∀ x, (pp1 x = pp x ∧ cp1 x = cp x) ∨
        (∃ p, pp x = some p ∧ p &&& PTE_P ≠ 0 ∧
          pp1 x = some (cow_upd p) ∧ cp1 x = some (cow_upd p) ∧
          x % PGSIZE = 0 ∧ a ≤ x ∧ x < stop) := by
  intro fuel
  induction fuel with
  | zero =>
    intro a pp cp pp1 cp1 ha hrun x
    simp only [fork_pages, Option.some.injEq, Prod.mk.injEq] at hrun
    obtain ⟨h1, h2⟩ := hrun
    subst h1
    subst h2
    exact Or.inl ⟨rfl, rfl⟩
  | succ fuel ih =>
    intro a pp cp pp1 cp1 ha hrun x
    have ha' : (a + PGSIZE) % PGSIZE = 0 := by
      simp only [PGSIZE] at ha ⊢
      omega
    simp only [fork_pages] at hrun
    by_cases hstop : a < stop
    · rw [if_pos hstop, PGROUNDDOWN_of_aligned a ha] at hrun
      split at hrun
      · rename_i p hpa
        split at hrun
        · rename_i hP
          split at hrun
          · rename_i hcw
            have hrec := ih (a + PGSIZE) (setp pp a (cow_upd p)) (setp cp a (cow_upd p))
              pp1 cp1 ha' hrun x
            by_cases hxa : x = a
            · subst hxa
              rcases hrec with ⟨h1, h2⟩ | ⟨q, hq, hqP, h1, h2, hal, hge, hlt⟩
              · right
                refine ⟨p, hpa, hP, ?_, ?_, ha, Nat.le_refl x, hstop⟩
                · rw [h1]
                  simp [setp]
                · rw [h2]
                  simp [setp]
              · right
                have hqe : cow_upd p = q := by simpa [setp] using hq
                subst hqe
                refine ⟨p, hpa, hP, ?_, ?_, ha, Nat.le_refl x, hstop⟩
                · rw [h1, cow_upd_idem]
                · rw [h2, cow_upd_idem]
            · rcases hrec with ⟨h1, h2⟩ | ⟨q, hq, hqP, h1, h2, hal, hge, hlt⟩
              · left
                rw [h1, h2]
                constructor <;> simp [setp, hxa]
              · right
                have hq' : pp x = some q := by
                  have := hq
                  simpa [setp, hxa] using this
                exact ⟨q, hq', hqP, h1, h2, hal, by omega, hlt⟩
          · exact absurd hrun (by simp)
        · rename_i hP
          rcases ih (a + PGSIZE) pp cp pp1 cp1 ha' hrun x with h | ⟨q, hq, hqP, h1, h2, hal, hge, hlt⟩
          · exact Or.inl h
          · exact Or.inr ⟨q, hq, hqP, h1, h2, hal, by omega, hlt⟩
      · rename_i hpa
        rcases ih (a + PGSIZE) pp cp pp1 cp1 ha' hrun x with h | ⟨q, hq, hqP, h1, h2, hal, hge, hlt⟩
        · exact Or.inl h
        · exact Or.inr ⟨q, hq, hqP, h1, h2, hal, by omega, hlt⟩
    · rw [if_neg hstop] at hrun
      simp only [Option.some.injEq, Prod.mk.injEq] at hrun
      obtain ⟨h1, h2⟩ := hrun
      subst h1
      subst h2
      exact Or.inl ⟨rfl, rfl⟩

theorem fork_pages_action (cwOk : Nat → Bool) (stop : Nat) :
    ∀ fuel a pp cp pp1 cp1, a % PGSIZE = 0 → stop ≤ a + fuel * PGSIZE →
      fork_pages cwOk stop fuel a pp cp = some (pp1, cp1) →
      ∀ x p0, a ≤ x → x < stop → x % PGSIZE = 0 → pp x = some p0 → p0 &&& PTE_P ≠ 0 →
        pp1 x = some (cow_upd p0) ∧ cp1 x = some (cow_upd p0) := by
  intro fuel
  induction fuel with
  | zero =>
    intro a pp cp pp1 cp1 ha hfuel hrun x p0 hax hxs hal hpx hP
    exfalso
    simp only [Nat.zero_mul, Nat.add_zero] at hfuel
    omega
  | succ fuel ih =>
    intro a pp cp pp1 cp1 ha hfuel hrun x p0 hax hxs hal hpx hP
    have ha' : (a + PGSIZE) % PGSIZE = 0 := by
      simp only [PGSIZE] at ha ⊢
      omega
    have hfuel' : stop ≤ (a + PGSIZE) + fuel * PGSIZE := by
      have hexp : a + (fuel + 1) * PGSIZE = (a + PGSIZE) + fuel * PGSIZE := by ring
      omega
    simp only [fork_pages] at hrun
    rw [if_pos (by omega : a < stop), PGROUNDDOWN_of_aligned a ha] at hrun
    by_cases hxa : x = a
    · subst hxa
      split at hrun
      · rename_i p hpa
        have hpe : p = p0 := by
          rw [hpa] at hpx
          exact (Option.some.injEq _ _).mp hpx
        subst hpe
        rw [if_pos hP] at hrun
        split at hrun
        · rename_i hcw
          have hcases := fork_pages_cases cwOk stop fuel (x + PGSIZE)
            (setp pp x (cow_upd p)) (setp cp x (cow_upd p)) pp1 cp1 ha' hrun x
          rcases hcases with ⟨h1, h2⟩ | ⟨q, hq, hqP, h1, h2, _, hge, _⟩
          · rw [h1, h2]
            constructor <;> simp [setp]
          · have hqe : cow_upd p = q := by simpa [setp] using hq
            subst hqe
            rw [h1, h2, cow_upd_idem]
            exact ⟨rfl, rfl⟩
        · exact absurd hrun (by simp)
      · rename_i hpa
        rw [hpa] at hpx
        exact absurd hpx (by simp)
    · have hxge : a + PGSIZE ≤ x := aligned_add_le ha hal (by omega)
      split at hrun
      · rename_i p hpa
        split at hrun
        · rename_i hPp
          split at hrun
          · rename_i hcw
            exact ih (a + PGSIZE) _ _ pp1 cp1 ha' hfuel' hrun x p0 hxge hxs hal
              (by simp [setp, hxa, hpx]) hP
          · exact absurd hrun (by simp)
        · exact ih (a + PGSIZE) pp cp pp1 cp1 ha' hfuel' hrun x p0 hxge hxs hal hpx hP
      · exact ih (a + PGSIZE) pp cp pp1 cp1 ha' hfuel' hrun x p0 hxge hxs hal hpx hP

theorem fork_maps_shape (cwOk : Nat → Bool) :
    ∀ pm pp cp pp2 cp2 cm,
      fork_maps cwOk pm pp cp = some (pp2, cp2, cm) → cm = pm := by
  intro pm
  induction pm with
  | nil =>
    intro pp cp pp2 cp2 cm hrun
    simp only [fork_maps, Option.some.injEq, Prod.mk.injEq] at hrun
    exact hrun.2.2.symm
  | cons m rest ih =>
    intro pp cp pp2 cp2 cm hrun
    simp only [fork_maps] at hrun
    split at hrun
    · split at hrun
      · exact absurd hrun (by simp)
      · rename_i pp1 cp1 hfp
        split at hrun
        · exact absurd hrun (by simp)
        · rename_i p2 c2 cmr hfm
          simp only [Option.some.injEq, Prod.mk.injEq] at hrun
          obtain ⟨h1, h2, h3⟩ := hrun
          rw [← h3]
          have hcm := ih pp1 cp1 p2 c2 cmr hfm
          rw [hcm]
    · split at hrun
      · exact absurd hrun (by simp)
      · rename_i p2 c2 cmr hfm
        simp only [Option.some.injEq, Prod.mk.injEq] at hrun
        obtain ⟨h1, h2, h3⟩ := hrun
        rw [← h3]
        have hcm := ih pp cp p2 c2 cmr hfm
        rw [hcm]

theorem fork_maps_good (cwOk : Nat → Bool) :
    ∀ pm pp cp pp2 cp2 cm,
      (∀ m ∈ pm, m.addr % PGSIZE = 0) →
      fork_maps cwOk pm pp cp = some (pp2, cp2, cm) →
      ∀ x v, pp x = some v → cp x = some v → v &&& PTE_P ≠ 0 → v &&& PTE_COW ≠ 0 →
        v &&& PTE_W = 0 → v < 2 ^ 32 → pp2 x = some v ∧ cp2 x = some v := by
  intro pm
  induction pm with
  | nil =>
    intro pp cp pp2 cp2 cm _ hrun x v hpx hcx _ _ _ _
    simp only [fork_maps, Option.some.injEq, Prod.mk.injEq] at hrun
    obtain ⟨h1, h2, _⟩ := hrun
    rw [← h1, ← h2]
    exact ⟨hpx, hcx⟩
  | cons m rest ih =>
    intro pp cp pp2 cp2 cm halign hrun x v hpx hcx hvP hvC hvW hvlt
    have halignr : ∀ mr ∈ rest, mr.addr % PGSIZE = 0 :=
      fun mr hmr => halign mr (List.mem_cons_of_mem m hmr)
    simp only [fork_maps] at hrun
    split at hrun
    · rename_i hpriv
      split at hrun
      · exact absurd hrun (by simp)
      · rename_i pp1 cp1 hfp
        split at hrun
        · exact absurd hrun (by simp)
        · rename_i p2 c2 cmr hfm
          simp only [Option.some.injEq, Prod.mk.injEq] at hrun
          obtain ⟨h1, h2, h3⟩ := hrun
          have hcases := fork_pages_cases cwOk (m.addr + m.length)
            ((m.length + PGSIZE - 1) / PGSIZE) m.addr pp cp pp1 cp1
            (halign m (List.mem_cons_self m rest)) hfp x
          have hnext : pp1 x = some v ∧ cp1 x = some v := by
            rcases hcases with ⟨hp1, hp2⟩ | ⟨q, hq, hqP, hp1, hp2, _, _, _⟩
            · rw [hp1, hp2]
              exact ⟨hpx, hcx⟩
            · have hqv : q = v := by
                rw [hq] at hpx
                exact (Option.some.injEq _ _).mp hpx
              subst hqv
              rw [hp1, hp2, cow_upd_eq_self q hvlt hvW hvC]
              exact ⟨rfl, rfl⟩
          have hres := ih pp1 cp1 p2 c2 cmr halignr hfm x v
            hnext.1 hnext.2 hvP hvC hvW hvlt
          rw [← h1, ← h2]
          exact hres
    · split at hrun
      · exact absurd hrun (by simp)
      · rename_i p2 c2 cmr hfm
        simp only [Option.some.injEq, Prod.mk.injEq] at hrun
        obtain ⟨h1, h2, h3⟩ := hrun
        have hres := ih pp cp p2 c2 cmr halignr hfm x v hpx hcx hvP hvC hvW hvlt
        rw [← h1, ← h2]
        exact hres

theorem fork_maps_inv (cwOk : Nat → Bool) :
    ∀ pm pp cp pp2 cp2 cm,
      (∀ m ∈ pm, m.addr % PGSIZE = 0) →
      fork_maps cwOk pm pp cp = some (pp2, cp2, cm) →
      (∀ x q, pp x = some q → q &&& PTE_COW ≠ 0 → q &&& PTE_W = 0) →
      (∀ x q, cp x = some q → q &&& PTE_COW ≠ 0 → q &&& PTE_W = 0) →
      (∀ x q, pp2 x = some q → q &&& PTE_COW ≠ 0 → q &&& PTE_W = 0) ∧
      (∀ x q, cp2 x = some q → q &&& PTE_COW ≠ 0 → q &&& PTE_W = 0) := by
  intro pm
  induction pm with
  | nil =>
    intro pp cp pp2 cp2 cm _ hrun hip hic
    simp only [fork_maps, Option.some.injEq, Prod.mk.injEq] at hrun
    obtain ⟨h1, h2, _⟩ := hrun
    rw [← h1, ← h2]
    exact ⟨hip, hic⟩
  | cons m rest ih =>
    intro pp cp pp2 cp2 cm halign hrun hip hic
    have halignr : ∀ mr ∈ rest, mr.addr % PGSIZE = 0 :=
      fun mr hmr => halign mr (List.mem_cons_of_mem m hmr)
    simp only [fork_maps] at hrun
    split at hrun
    · split at hrun
      · exact absurd hrun (by simp)
      · rename_i pp1 cp1 hfp
        split at hrun
        · exact absurd hrun (by simp)
        · rename_i p2 c2 cmr hfm
          simp only [Option.some.injEq, Prod.mk.injEq] at hrun
          obtain ⟨h1, h2, _⟩ := hrun
          have hip1 : ∀ x q, pp1 x = some q → q &&& PTE_COW ≠ 0 → q &&& PTE_W = 0 := by
            intro x q hx hqC
            rcases fork_pages_cases cwOk (m.addr + m.length)
              ((m.length + PGSIZE - 1) / PGSIZE) m.addr pp cp pp1 cp1
              (halign m (List.mem_cons_self m rest)) hfp x with ⟨hp1, _⟩ | ⟨p, _, _, hp1, _, _, _, _⟩
            · rw [hp1] at hx
              exact hip x q hx hqC
            · rw [hp1] at hx
              have hqe : cow_upd p = q := (Option.some.injEq _ _).mp hx
              rw [← hqe]
              exact cow_upd_W p
          have hic1 : ∀ x q, cp1 x = some q → q &&& PTE_COW ≠ 0 → q &&& PTE_W = 0 := by
            intro x q hx hqC
            rcases fork_pages_cases cwOk (m.addr + m.length)
              ((m.length + PGSIZE - 1) / PGSIZE) m.addr pp cp pp1 cp1
              (halign m (List.mem_cons_self m rest)) hfp x with ⟨_, hp2⟩ | ⟨p, _, _, _, hp2, _, _, _⟩
            · rw [hp2] at hx
              exact hic x q hx hqC
            · rw [hp2] at hx
              have hqe : cow_upd p = q := (Option.some.injEq _ _).mp hx
              rw [← hqe]
              exact cow_upd_W p
          have hres := ih pp1 cp1 p2 c2 cmr halignr hfm hip1 hic1
          rw [← h1, ← h2]
          exact hres
    · split at hrun
      · exact absurd hrun (by simp)
      · rename_i p2 c2 cmr hfm
        simp only [Option.some.injEq, Prod.mk.injEq] at hrun
        obtain ⟨h1, h2, _⟩ := hrun
        have hres := ih pp cp p2 c2 cmr halignr hfm hip hic
        rw [← h1, ← h2]
        exact hres

theorem fork_maps_action (cwOk : Nat → Bool) :
    ∀ pm pp cp pp2 cp2 cm,
      (∀ m ∈ pm, m.addr % PGSIZE = 0) →
      fork_maps cwOk pm pp cp = some (pp2, cp2, cm) →
      ∀ m, m ∈ pm → m.flags &&& MAP_PRIVATE ≠ 0 →
        ∀ x p0, m.addr ≤ x → x < m.addr + m.length → x % PGSIZE = 0 →
          pp x = some p0 → p0 &&& PTE_P ≠ 0 →
          pp2 x = some (cow_upd p0) ∧ cp2 x = some (cow_upd p0) := by
  intro pm
  induction pm with
  | nil =>
    intro pp cp pp2 cp2 cm _ _ m hm
    exact absurd hm (by simp)
  | cons mh rest ih =>
    intro pp cp pp2 cp2 cm halign hrun m hm hpriv x p0 hax hxs hal hpx hP
    have halignr : ∀ mr ∈ rest, mr.addr % PGSIZE = 0 :=
      fun mr hmr => halign mr (List.mem_cons_of_mem mh hmr)
    simp only [fork_maps] at hrun
    split at hrun
    · rename_i hprivh
      split at hrun
      · exact absurd hrun (by simp)
      · rename_i pp1 cp1 hfp
        split at hrun
        · exact absurd hrun (by simp)
        · rename_i p2 c2 cmr hfm
          simp only [Option.some.injEq, Prod.mk.injEq] at hrun
          obtain ⟨h1, h2, _⟩ := hrun
          rcases List.mem_cons.mp hm with he | hmr
          · subst he
            have hup := fork_pages_action cwOk (m.addr + m.length)
              ((m.length + PGSIZE - 1) / PGSIZE) m.addr pp cp pp1 cp1
              (halign m (List.mem_cons_self m rest)) (pages_fuel m.addr m.length)
              hfp x p0 hax hxs hal hpx hP
            have hres := fork_maps_good cwOk rest pp1 cp1 p2 c2 cmr halignr hfm
              x (cow_upd p0) hup.1 hup.2 (cow_upd_P p0 hP) (cow_upd_COW p0)
              (cow_upd_W p0) (cow_upd_lt p0)
            rw [← h1, ← h2]
            exact hres
          · rcases fork_pages_cases cwOk (mh.addr + mh.length)
              ((mh.length + PGSIZE - 1) / PGSIZE) mh.addr pp cp pp1 cp1
              (halign mh (List.mem_cons_self mh rest)) hfp x with ⟨hp1, hp2⟩ | ⟨q, hq, hqP, hp1, hp2, _, _, _⟩
            · have hres := ih pp1 cp1 p2 c2 cmr halignr hfm m hmr hpriv x p0 hax hxs hal
                (by rw [hp1]; exact hpx) hP
              rw [← h1, ← h2]
              exact hres
            · have hqv : q = p0 := by
                rw [hq] at hpx
                exact (Option.some.injEq _ _).mp hpx
              subst hqv
              have hres := ih pp1 cp1 p2 c2 cmr halignr hfm m hmr hpriv x (cow_upd q)
                hax hxs hal hp1 (cow_upd_P q hP)
              rw [h1, h2, cow_upd_idem] at hres
              exact hres
    · rename_i hprivh
      split at hrun
      · exact absurd hrun (by simp)
      · rename_i p2 c2 cmr hfm
        simp only [Option.some.injEq, Prod.mk.injEq] at hrun
        obtain ⟨h1, h2, _⟩ := hrun
        rcases List.mem_cons.mp hm with he | hmr
        · subst he
          exact absurd hpriv hprivh
        · have hres := ih pp cp p2 c2 cmr halignr hfm m hmr hpriv x p0 hax hxs hal hpx hP
          rw [← h1, ← h2]
          exact hres

/-- C8: within the scope of the fork mapping hook - the code that
replicates the mapping table and prepares COW - after a successful
fork the child mapping table is a copy of the parent table at the same
indices (so the child num_mappings equals the parent one); for every
PRIVATE descriptor and every page of its range whose parent PTE was
present before fork, the parent PTE afterwards has PTE_COW set and
PTE_W clear, is still present, keeps its frame, and the child holds a
PTE at the same address with identical bits; and the invariant PTE_COW
implies not PTE_W, assumed of both page tables before the hook, holds
of both afterwards. -/
theorem c8_fork_private_cow (cwOk : Nat → Bool) (pm : List mem_mapping)
    (pp cp pp2 cp2 : Nat → Option Nat) (cm : List mem_mapping)
    (halign : ∀ m ∈ pm, m.addr % PGSIZE = 0)
    (hrun : fork_maps cwOk pm pp cp = some (pp2, cp2, cm))
    (hinvp : ∀ x q, pp x = some q → q &&& PTE_COW ≠ 0 → q &&& PTE_W = 0)
    (hinvc : ∀ x q, cp x = some q → q &&& PTE_COW ≠ 0 → q &&& PTE_W = 0) :
    cm = pm ∧
    (∀ m ∈ pm, m.flags &&& MAP_PRIVATE ≠ 0 →
      ∀ x p0, m.addr ≤ x → x < m.addr + m.length → x % PGSIZE = 0 →
        pp x = some p0 → p0 &&& PTE_P ≠ 0 →
        pp2 x = some (cow_upd p0) ∧ cp2 x = some (cow_upd p0) ∧
        cow_upd p0 &&& PTE_COW ≠ 0 ∧ cow_upd p0 &&& PTE_W = 0 ∧
        cow_upd p0 &&& PTE_P ≠ 0 ∧ PTE_ADDR (cow_upd p0) = PTE_ADDR p0) ∧
    (∀ x q, pp2 x = some q → q &&& PTE_COW ≠ 0 → q &&& PTE_W = 0) ∧
    (∀ x q, cp2 x = some q → q &&& PTE_COW ≠ 0 → q &&& PTE_W = 0) := by
  have hinv2 := fork_maps_inv cwOk pm pp cp pp2 cp2 cm halign hrun hinvp hinvc
  refine ⟨fork_maps_shape cwOk pm pp cp pp2 cp2 cm hrun, ?_, hinv2.1, hinv2.2⟩
  intro m hm hpriv x p0 hax hxs hal hpx hP
  have hup := fork_maps_action cwOk pm pp cp pp2 cp2 cm halign hrun m hm hpriv
    x p0 hax hxs hal hpx hP
  exact ⟨hup.1, hup.2, cow_upd_COW p0, cow_upd_W p0, cow_upd_P p0 hP, cow_upd_frame p0⟩

/-- Witness for C9: at length one page on the one-entry table holding
mapA, the allocator result satisfies the spec-side slotFree contract. -/
theorem c9_witness :
    0 < 4096 ∧ slotFree [mapA] 4096 (find_available_address [mapA] 4096) :=
  ⟨by decide,
    ((c9_find_available_address_first_fit [mapA] 4096 (by decide)).1 (by decide)).1⟩

/-- Witness for C10: a zero-length request fails validation and leaves
the empty table unchanged, and a request setting both MAP_SHARED and
MAP_PRIVATE together with MAP_ANONYMOUS is not rejected. -/
theorem c10_witness :
    mmap_validation_fails (fun _ => true) 0 0 MAP_PRIVATE (-1) 0 ∧
    sys_mmap (fun _ => true) [] 0 0 0 MAP_PRIVATE (-1) 0 = (-1, []) ∧
    (sys_mmap (fun _ => true) [] 0 4096 0 (MAP_SHARED ||| MAP_PRIVATE ||| MAP_ANONYMOUS)
      (-1) 0).1 ≠ -1 :=
  ⟨by unfold mmap_validation_fails; decide,
    (c10_mmap_validation (fun _ => true) [] 0 0 0 MAP_PRIVATE (-1) 0).1
      (by unfold mmap_validation_fails; decide),
    (c10_mmap_validation (fun _ => true) [] 0 4096 0
      (MAP_SHARED ||| MAP_PRIVATE ||| MAP_ANONYMOUS) (-1) 0).2
      (by decide) (by decide) (by unfold mmap_validation_fails; decide) (by decide)⟩

/-- Witness for C7: the COW fault on cowState resolves with return
value 1, a TLB flush, and the new frame holding a copy of the old
page contents (the constant 3). -/
theorem c7_witness :
    (page_fault_handler pfEnvOk cowState 0x60000123).map
      (fun o => (o.res, o.tlbFlushed, o.mem 0x80400000 0)) = some (1, true, 3) := by
  obtain ⟨np, heq, _⟩ := c7_cow_fault pfEnvOk cowState 0x60000123 cowPte 0x80400000
    (by decide) (by decide) (by decide) (by decide) (by decide) (by decide)
    (by decide) (by decide)
  rw [heq]
  rfl

/-- Witness for C8: forking a process holding the private one-page
mapping mapA with a present writable parent PTE leaves both parent and
child with the same COW-marked, non-writable PTE. -/
theorem c8_witness :
    setp parPt 0x60000000 (cow_upd parPte) 0x60000000 = some (cow_upd parPte) ∧
    setp (fun _ => none) 0x60000000 (cow_upd parPte) 0x60000000 = some (cow_upd parPte) ∧
    cow_upd parPte &&& PTE_COW ≠ 0 ∧ cow_upd parPte &&& PTE_W = 0 := by
  have h := c8_fork_private_cow (fun _ => true) [mapA] parPt (fun _ => none)
    (setp parPt 0x60000000 (cow_upd parPte))
    (setp (fun _ => none) 0x60000000 (cow_upd parPte)) [mapA]
    (by decide)
    (by rfl)
    (by
      intro x q hx hC
      unfold parPt at hx
      by_cases hxe : x = 0x60000000
      · rw [if_pos hxe] at hx
        have hq : parPte = q := (Option.some.injEq _ _).mp hx
        rw [← hq] at hC
        exact absurd hC (by decide)
      · rw [if_neg hxe] at hx
        exact absurd hx (by simp))
    (by
      intro x q hx hC
      exact absurd hx (by simp))
  have hu := h.2.1 mapA (by decide) (by decide) 0x60000000 parPte (by decide) (by decide)
    (by decide) (by decide) (by decide)
  exact ⟨hu.1, hu.2.1, hu.2.2.1, hu.2.2.2.1⟩

/-- Witness for C4: on growState the gap above growMap is open, so the
fault at the mapping base returns 1 and the descriptor length grows by
one page. -/
theorem c4_witness :
    growMap.flags &&& MAP_GROWSUP ≠ 0 ∧
    (page_fault_handler pfEnvOk growState 0x60000000).map (fun o => (o.res, o.mappings)) =
      some (1, [growMap].set 0
        { growMap with length := growMap.length + PGSIZE }) :=
  ⟨by decide,
    (c4_growsup_extension pfEnvOk growState 0x60000000 0 growMap 0x80400000
      (by intro p hp; simp [growState] at hp)
      (by decide)
      (fun k hk => absurd hk (Nat.not_lt_zero k))
      (by decide) (by decide) (by decide) (by decide)).1 (by decide)⟩

/-- Concrete descriptor stored by the fileMaps mmap call. -/
theorem fileMaps_eq :
    fileMaps = [{ addr := 0x60000000, length := 4096, flags := MAP_SHARED, fd := 1,
                  originalLength := 4096, allocated := false }] := by
  decide

/-- Witness for C6: the fault on the file-backed fileGrowState mapping
- whose descriptor also carries GROWSUP with room above - reads one
page at file offset 0 under the transaction and lock events, grows the
length by one page and installs the frame. -/
theorem c6_witness :
    page_fault_handler pfEnvOk fileGrowState 0x60000000 =
      some { res := 1,
             mappings := if fileGrowMap.flags &&& MAP_GROWSUP ≠ 0 then
                 fileGrowState.mappings.set 0
                   { fileGrowMap with length := fileGrowMap.length + PGSIZE }
               else fileGrowState.mappings,
             pte := setp fileGrowState.pte (PGROUNDDOWN 0x60000000)
               (mappages_value (V2P 0x80400000)),
             mem := setmem fileGrowState.mem 0x80400000
               (pfEnvOk.readPage (pfEnvOk.fileInode fileGrowMap.fd)
                 (toInt32 (PGROUNDDOWN 0x60000000) - toInt32 fileGrowMap.addr)),
             freed := [],
             fsTrace := [FsEvent.beginOp, FsEvent.ilock (pfEnvOk.fileInode fileGrowMap.fd),
               FsEvent.readi (pfEnvOk.fileInode fileGrowMap.fd)
                 (toInt32 (PGROUNDDOWN 0x60000000) - toInt32 fileGrowMap.addr) PGSIZE,
               FsEvent.iunlock (pfEnvOk.fileInode fileGrowMap.fd), FsEvent.endOp],
             tlbFlushed := false } :=
  c6_file_backed_fill pfEnvOk fileGrowState 0x60000000 0 fileGrowMap 0x80400000
    (by intro p hp; simp [fileGrowState] at hp)
    (by decide)
    (fun k hk => absurd hk (Nat.not_lt_zero k))
    (by decide) (by decide) (by decide) (by decide) (by decide) (by decide) (by decide)

end Osp5
